import Mathlib

/-!
Verification development for the Backuper repository
(`backend/backup_manager.py`, `backend/app.py`).

The Python code is shallowly embedded: pure logic becomes Lean functions,
the remote filesystem seen over SSH becomes an inductive tree, the live
job dictionary becomes an association list, and the per-host backup
directory (archives plus sidecar metadata documents) becomes an explicit
state record.  Remote I/O outcomes that the code branches on (a remote
command failing, a file transfer failing, a deletion failing) are passed
in as explicit oracle parameters, so every branch of the source is
reachable in the model.
-/

namespace Backuper

/-! ### Model of the Python `str` operations used by the code

Python strings are embedded as Lean `String`s; the operations the code
uses (`str.lower`, `str.endswith`, `<` on strings) are implemented
structurally over the underlying character list so that they compute by
kernel reduction. -/

/-- ASCII lowering of one character, as Python `str.lower` acts on the
ASCII range used by the paths in this program. -/
def lowerChar (c : Char) : Char :=
  if 'A' ≤ c ∧ c ≤ 'Z' then Char.ofNat (c.toNat + 32) else c

/-- Model of Python `s.lower()`. -/
def pyLower (s : String) : String :=
  String.mk (s.data.map lowerChar)

/-- Model of Python `s.endswith(suffix)`. -/
def pyEndsWith (s suffix : String) : Bool :=
  suffix.data.isSuffixOf s.data

/-- Lexicographic `≤` on character lists: the order Python uses to
compare strings (shorter prefix sorts first). -/
def lexLeb : List Char → List Char → Bool
  | [], _ => true
  | _ :: _, [] => false
  | a :: as, b :: bs => if a < b then true else if b < a then false else lexLeb as bs

/-- Model of Python `a <= b` on strings. -/
def pyStrLeb (a b : String) : Bool := lexLeb a.data b.data

/-- Totality of the lexicographic order: any two strings compare. -/
def lexLeb_total : ∀ as bs, lexLeb as bs = true ∨ lexLeb bs as = true := by
  intro as
  induction as with
  | nil => intro bs; left; rfl
  | cons a as ih =>
    intro bs
    cases bs with
    | nil => right; rfl
    | cons b bs =>
      by_cases h1 : a < b
      · left; simp [lexLeb, h1]
      · by_cases h2 : b < a
        · right; simp [lexLeb, h2]
        · have he : a = b := le_antisymm (not_lt.mp h2) (not_lt.mp h1)
          subst he
          rcases ih bs with h | h
          · left; simp [lexLeb, h]
          · right; simp [lexLeb, h]

/-- Transitivity of the lexicographic order. -/
def lexLeb_trans :
    ∀ as bs cs, lexLeb as bs = true → lexLeb bs cs = true → lexLeb as cs = true := by
  intro as
  induction as with
  | nil => intro bs cs _ _; rfl
  | cons a as ih =>
    intro bs cs h1 h2
    cases bs with
    | nil => simp [lexLeb] at h1
    | cons b bs =>
      cases cs with
      | nil => simp [lexLeb] at h2
      | cons c cs =>
        simp only [lexLeb] at h1 h2 ⊢
        by_cases hab : a < b
        · by_cases hbc : b < c
          · simp [lt_trans hab hbc]
          · by_cases hcb : c < b
            · simp [hbc, hcb] at h2
            · have he : b = c := le_antisymm (not_lt.mp hcb) (not_lt.mp hbc)
              subst he
              simp [hab]
        · by_cases hba : b < a
          · simp [hab, hba] at h1
          · have he : a = b := le_antisymm (not_lt.mp hba) (not_lt.mp hab)
            subst he
            rw [if_neg (lt_irrefl a), if_neg (lt_irrefl a)] at h1
            by_cases hac : a < c
            · simp [hac]
            · by_cases hca : c < a
              · simp [hac, hca] at h2
              · have he2 : a = c := le_antisymm (not_lt.mp hca) (not_lt.mp hac)
                subst he2
                rw [if_neg (lt_irrefl a), if_neg (lt_irrefl a)] at h2 ⊢
                exact ih _ _ h1 h2

/-! ### Progress arithmetic and the excluded-extension policy -/

/-- The download-phase progress value of
`_download_path_with_progress` (backup_manager.py line 301):
`15 + (files_processed * 60 // total_files)`, with Python `//` on
non-negative integers being `Nat` division. -/
def downloadProgress (filesProcessed totalFiles : Nat) : Nat :=
  15 + filesProcessed * 60 / totalFiles

/-- The excluded-extension test of `_download_path_with_progress`
(line 293): `remote_path.lower().endswith(('.sqlite', '.sqlite3', '.db'))`. -/
def isExcludedDb (p : String) : Bool :=
  pyEndsWith (pyLower p) ".sqlite" || pyEndsWith (pyLower p) ".sqlite3" ||
    pyEndsWith (pyLower p) ".db"

/-! ### Progress events -/

/-- One call of the `progress_callback` sink: its event kind
(`info`/`success`/`warning`/`error`), message, and optional progress
percentage.  Exception detail text inside messages is not modelled. -/
structure Event where
  kind : String
  message : String
  progress : Option Nat
deriving Repr, DecidableEq

/-! ### The remote filesystem and the downloader -/

/-- What the remote host presents at one requested path: the path is
missing, or a regular file (with size and an oracle for whether the
SFTP transfer of this file succeeds), or a directory (with children and
an oracle for whether `sftp.listdir` on it succeeds). -/
inductive RemoteNode where
  | missing (path : String)
  | file (path : String) (size : Nat) (transferOk : Bool)
  | dir (path : String) (children : List RemoteNode) (listOk : Bool)
deriving Repr

mutual

/-- Number of regular files in the tree: what the remote
`find <path> -type f | wc -l` issued by `_count_files` (line 253)
reports when the remote command succeeds.  Excluded database files are
ordinary files to `find`, so they are counted. -/
def countFiles : RemoteNode → Nat
  | .missing _ => 0
  | .file _ _ _ => 1
  | .dir _ cs _ => countList cs

/-- File count of a list of sibling nodes. -/
def countList : List RemoteNode → Nat
  | [] => 0
  | c :: cs => countFiles c + countList cs

end

/-- Model of `_count_files` (lines 250-257): the remote count, or `0` when the
remote command fails (`except: return 0`); `cmdOk` is the oracle for
the remote command succeeding. -/
def count_files (n : RemoteNode) (cmdOk : Bool) : Nat :=
  if cmdOk then countFiles n else 0

/-- Result of one `_download_path_with_progress` call: files
successfully transferred, bytes transferred, and the progress events
emitted. -/
structure DlResult where
  files : Nat
  size : Nat
  events : List Event
deriving Repr, DecidableEq

mutual

/-- Model of `_download_path_with_progress` (lines 268-340).  `cb` is whether a
`progress_callback` was supplied (all emissions are guarded by
`if progress_callback:`), `tf` is the `total_files` denominator and
`fp` the running `files_processed` argument.

Branches, in source order: a missing path warns and returns `(0, 0)`;
an excluded database file warns and returns `(0, 0)`; for any other
file, when a callback is present and `total_files` is zero the progress
expression `15 + (files_processed * 60 // total_files)` raises
`ZeroDivisionError`, which the function's own `except` catches, emitting
an error event and returning `(0, 0)` before any transfer; otherwise
the `Downloading` info event carries `downloadProgress fp tf`, and the
transfer either succeeds (count 1, the file's size) or is skipped with
a warning.  A directory recurses over its children accumulating counts,
sizes and events, threading `files_processed + files_downloaded`; a
failing `listdir` emits an error event and contributes nothing. -/
def download_path_with_progress (cb : Bool) (tf fp : Nat) : RemoteNode → DlResult
  | .missing p =>
      ⟨0, 0, if cb then [⟨"warning", "Path does not exist: " ++ p, none⟩] else []⟩
  | .file p size ok =>
      if isExcludedDb p then
        ⟨0, 0, if cb then [⟨"warning", "Skipping locked database file: " ++ p, none⟩] else []⟩
      else if cb ∧ tf = 0 then
        ⟨0, 0, [⟨"error",
          "Error downloading " ++ p ++ ": integer division or modulo by zero", none⟩]⟩
      else
        let infoEv : List Event :=
          if cb then [⟨"info", "Downloading: " ++ p, some (downloadProgress fp tf)⟩] else []
        if ok then
          ⟨1, size, infoEv ++ (if cb then
            [⟨"success", "Downloaded: " ++ p ++ " (" ++ toString size ++ " bytes)", none⟩]
            else [])⟩
        else
          ⟨0, 0, infoEv ++ (if cb then
            [⟨"warning", "Skipped locked file: " ++ p, none⟩] else [])⟩
  | .dir p children listOk =>
      if listOk then downloadChildren cb tf fp children
      else ⟨0, 0, if cb then [⟨"error", "Error accessing directory " ++ p, none⟩] else []⟩

/-- The `for file in files:` loop of the directory branch (lines
322-330), and equally the `for i, path in enumerate(paths):` loop of
`_perform_backup` (lines 145-166): sequential accumulation over nodes,
threading the running `files_processed`.  A child's failure is absorbed
inside its own call, so later siblings are still processed. -/
def downloadChildren (cb : Bool) (tf fp : Nat) : List RemoteNode → DlResult
  | [] => ⟨0, 0, []⟩
  | c :: cs =>
      let r := download_path_with_progress cb tf fp c
      let rest := downloadChildren cb tf (fp + r.files) cs
      ⟨r.files + rest.files, r.size + rest.size, r.events ++ rest.events⟩

end

/-- The analysis phase of `_perform_backup` (lines 122-127):
`total_files` is the sum of `_count_files` over the requested root
paths, each root paired with the oracle for its remote count command. -/
def analysisTotal : List (RemoteNode × Bool) → Nat
  | [] => 0
  | (n, ok) :: rest => count_files n ok + analysisTotal rest

/-! ### The live job map (`self.active_backups`) and the orchestrator -/

/-- One entry of `self.active_backups`: the per-server Backup Job
record, with the fields the dictionary literal of `start_backup`
(lines 72-81) and the later updates of `_perform_backup` give it. -/
structure JobRecord where
  status : String
  startedAt : String
  progress : Nat
  currentFile : Option String
  filesProcessed : Nat
  totalFiles : Nat
  dataSize : Nat
  completedAt : Option String
  backupFile : Option String
  error : Option String
deriving Repr, DecidableEq

/-- The `self.active_backups` dictionary, keyed by `server_name`. -/
abbrev Backups : Type := List (String × JobRecord)

/-- Python `server_name in self.active_backups` /
`self.active_backups[server_name]` read access. -/
def lookupJob : Backups → String → Option JobRecord
  | [], _ => none
  | (k, v) :: rest, s => if k = s then some v else lookupJob rest s

/-- Python dictionary assignment
`self.active_backups[server_name] = record` (insert or replace). -/
def updateJob : Backups → String → JobRecord → Backups
  | [], s, r => [(s, r)]
  | (k, v) :: rest, s, r =>
      if k = s then (s, r) :: rest else (k, v) :: updateJob rest s r

/-- The guarded updates
`if server_name in self.active_backups: self.active_backups[server_name][...] = ...`
used throughout `_perform_backup`: mutate the record only when the key
is present, never inserting. -/
def setJobFields (m : Backups) (s : String) (f : JobRecord → JobRecord) : Backups :=
  match lookupJob m s with
  | none => m
  | some r => updateJob m s (f r)

/-- The fresh record `start_backup` registers (lines 72-81). -/
def initialJob (startedAt : String) : JobRecord :=
  { status := "running", startedAt := startedAt, progress := 0, currentFile := none,
    filesProcessed := 0, totalFiles := 0, dataSize := 0, completedAt := none,
    backupFile := none, error := none }

/-- Model of `start_backup` (lines 57-83): rejected when `server_name` is a key
of `self.active_backups` — whatever the stored status is — otherwise a
fresh `running` record is registered and the start is acknowledged.
Returns `(success, message, resulting map)`; the launched
`_perform_backup` thread is modelled separately as the later
application of `perform_backup_job` / `perform_backup_fs`. -/
def start_backup (m : Backups) (serverName startedAt : String) : Bool × String × Backups :=
  if (lookupJob m serverName).isSome then
    (false, "Backup already in progress for this server", m)
  else
    (true, "Backup started successfully", updateJob m serverName (initialJob startedAt))

/-- Model of `get_backup_status` (lines 431-438): the live record, or `none`
standing for the `{'status': 'idle'}` answer. -/
def get_backup_status (m : Backups) (serverName : String) : Option JobRecord :=
  lookupJob m serverName

/-- How one `_perform_backup` run terminates: no exception escapes to
the outer `except` (success), or an exception is raised before the
archive file is created at line 172 (connection, counting), or after
it (compression, metadata write), the distinction that decides what the
run leaves on disk. -/
inductive RunOutcome where
  | success
  | failBeforeArchive (msg : String)
  | failAfterArchive (msg : String)
deriving Repr, DecidableEq

/-- Effect of one terminating `_perform_backup` run on
`self.active_backups` (lines 230-248): on success the guarded updates
set the counters, `status = 'completed'`, `completed_at`, `backup_file`
and `progress = 100`; on any exception the outer `except` sets
`status = 'failed'` and `error` to the captured message.  All updates
are skipped when the key is absent. -/
def perform_backup_job (m : Backups) (serverName : String) (outcome : RunOutcome)
    (totalFiles filesProcessed dataSize : Nat) (backupPath completedAt : String) : Backups :=
  match outcome with
  | .success =>
      setJobFields m serverName (fun r =>
        { r with totalFiles := totalFiles, filesProcessed := filesProcessed,
                 dataSize := dataSize, status := "completed",
                 completedAt := some completedAt, backupFile := some backupPath,
                 progress := 100 })
  | .failBeforeArchive msg =>
      setJobFields m serverName (fun r => { r with status := "failed", error := some msg })
  | .failAfterArchive msg =>
      setJobFields m serverName (fun r => { r with status := "failed", error := some msg })

/-- A `_perform_backup` run in which no exception escapes to the outer
`except` (the success pipeline): count the requested roots (lines
122-127), download them in order threading `files_processed` (lines
140-166), then record completion in the job map (lines 222-236).
Returns the updated map together with the download result, whose
`files` is both the final `files_processed` and the number of files
staged for (and hence contained in) the archive. -/
def run_backup_pipeline (m : Backups) (serverName : String)
    (roots : List (RemoteNode × Bool)) (cb : Bool) (backupPath completedAt : String) :
    Backups × DlResult :=
  let tf := analysisTotal roots
  let dl := downloadChildren cb tf 0 (roots.map Prod.fst)
  (perform_backup_job m serverName .success tf dl.files dl.size backupPath completedAt, dl)

/-! ### The per-host backup directory: archives, metadata, retention -/

/-- One `backup_<timestamp>.zip` archive file in the host's backup
directory, with its filesystem modification time. -/
structure Archive where
  name : String
  mtime : Nat
deriving Repr, DecidableEq

/-- One sidecar metadata document `<name>.json`: `name` is the archive
file name it describes (`backup_name`), `createdAt` the `created_at`
identifier, `filesCount` the recorded `files_count`. -/
structure Meta where
  name : String
  createdAt : String
  filesCount : Nat
deriving Repr, DecidableEq

/-- The host's backup directory: its archive files and its metadata
documents. -/
structure FsState where
  archives : List Archive
  metas : List Meta
deriving Repr, DecidableEq

/-- Deleting the archive file named `n` (`backup_file.unlink()`). -/
def removeArchives (fs : FsState) (n : String) : FsState :=
  { fs with archives := fs.archives.filter (fun a => !(a.name == n)) }

/-- Deleting the metadata document of the archive named `n`
(`metadata_file.unlink()`). -/
def removeMetas (fs : FsState) (n : String) : FsState :=
  { fs with metas := fs.metas.filter (fun m => !(m.name == n)) }

/-- The descending order `backup_files.sort(reverse=True)` of
`_cleanup_old_backups` puts on `(st_mtime, path)` tuples: `a` precedes
`b` when `b`'s key is at most `a`'s, mtime first, path as tiebreak. -/
def pruneGE (a b : Archive) : Prop :=
  b.mtime < a.mtime ∨ (b.mtime = a.mtime ∧ pyStrLeb b.name a.name = true)

instance : DecidableRel pruneGE := fun a b => by unfold pruneGE; infer_instance

instance : IsTotal Archive pruneGE where
  total a b := by
    rcases Nat.lt_trichotomy a.mtime b.mtime with h | h | h
    · exact Or.inr (Or.inl h)
    · rcases lexLeb_total a.name.data b.name.data with h2 | h2
      · exact Or.inr (Or.inr ⟨h, h2⟩)
      · exact Or.inl (Or.inr ⟨h.symm, h2⟩)
    · exact Or.inl (Or.inl h)

instance : IsTrans Archive pruneGE where
  trans a b c hab hbc := by
    rcases hab with h1 | ⟨e1, l1⟩ <;> rcases hbc with h2 | ⟨e2, l2⟩
    · exact Or.inl (h2.trans h1)
    · exact Or.inl (e2 ▸ h1)
    · exact Or.inl (e1 ▸ h2)
    · exact Or.inr ⟨e2.trans e1, lexLeb_trans _ _ _ l2 l1⟩

/-- The default `keep_count=7` of `_cleanup_old_backups`. -/
def keep_count_default : Nat := 7

/-- The deletion loop `for _, backup_file in backup_files[keep_count:]`
of `_cleanup_old_backups` (lines 355-360), with `unlinkOk` the oracle
for each `unlink` call succeeding.  A failing `unlink` raises, and the
single `try/except` wrapping the whole function catches it, prints the
error and returns — so the remaining entries of the list are not
visited.  Returns the resulting directory state and the printed log. -/
def pruneLoop (unlinkOk : String → Bool) : FsState → List Archive → FsState × List String
  | fs, [] => (fs, [])
  | fs, v :: rest =>
      if unlinkOk v.name then
        let fs1 := removeArchives fs v.name
        if fs1.metas.any (fun m => m.name == v.name) then
          if unlinkOk (v.name ++ ".json") then
            pruneLoop unlinkOk (removeMetas fs1 v.name) rest
          else (fs1, ["Error cleaning up old backups"])
        else pruneLoop unlinkOk fs1 rest
      else (fs, ["Error cleaning up old backups"])

/-- Model of `_cleanup_old_backups` (lines 342-363): glob the archives, sort
descending by `(st_mtime, path)`, and run the deletion loop on every
entry beyond the first `keepCount`. -/
def cleanup_old_backups (unlinkOk : String → Bool) (fs : FsState) (keepCount : Nat) :
    FsState × List String :=
  pruneLoop unlinkOk fs ((List.insertionSort pruneGE fs.archives).drop keepCount)

/-- The descending `created_at` order `get_backups` sorts by. -/
def metaCreatedGE (m1 m2 : Meta) : Prop :=
  pyStrLeb m2.createdAt m1.createdAt = true

instance : DecidableRel metaCreatedGE := fun a b => by unfold metaCreatedGE; infer_instance

/-- Model of `get_backups` (lines 365-397) restricted to one host directory:
every metadata document whose referenced archive file still exists,
sorted by `created_at` descending. -/
def get_backups (fs : FsState) : List Meta :=
  List.insertionSort metaCreatedGE
    (fs.metas.filter (fun m => fs.archives.any (fun a => a.name == m.name)))

/-- Model of `delete_backup` (lines 399-429): scan `get_backups()` for the first
record whose `created_at` equals `backup_id`; absent → `(False,
"Backup not found")` with nothing touched; present → delete the archive
file, then its metadata document, and report success.  `unlinkOk` is
the oracle for each `unlink`; a raising `unlink` is caught by the
function's `except`, which reports failure (with whatever was already
deleted staying deleted). -/
def delete_backup (unlinkOk : String → Bool) (fs : FsState) (backupId : String) :
    Bool × String × FsState :=
  match (get_backups fs).find? (fun m => m.createdAt == backupId) with
  | none => (false, "Backup not found", fs)
  | some b =>
      if unlinkOk b.name then
        let fs1 := removeArchives fs b.name
        if unlinkOk (b.name ++ ".json") then
          (true, "Backup deleted successfully", removeMetas fs1 b.name)
        else (false, "Error deleting backup", fs1)
      else (false, "Error deleting backup", fs)

/-- Effect of one terminating `_perform_backup` run on the host's
backup directory: a run failing before line 172 leaves it untouched;
a run failing after the archive file was created leaves the archive
without a metadata document (the metadata write at lines 215-217 was
never reached); a successful run writes the archive (line 172) and its
metadata document (lines 215-217) and then prunes (line 238). -/
def perform_backup_fs (unlinkOk : String → Bool) (fs : FsState) (backupName : String)
    (mtime : Nat) (createdAt : String) (filesCount : Nat) (outcome : RunOutcome)
    (keepCount : Nat) : FsState :=
  match outcome with
  | .failBeforeArchive _ => fs
  | .failAfterArchive _ => { fs with archives := fs.archives ++ [⟨backupName, mtime⟩] }
  | .success =>
      (cleanup_old_backups unlinkOk
        { archives := fs.archives ++ [⟨backupName, mtime⟩],
          metas := fs.metas ++ [⟨backupName, createdAt, filesCount⟩] } keepCount).1

/-- One operation on the host's backup directory, for stating
invariants over arbitrary operation sequences. -/
inductive FsOp where
  | run (backupName : String) (mtime : Nat) (createdAt : String) (filesCount : Nat)
      (outcome : RunOutcome) (keepCount : Nat)
  | deleteOp (backupId : String)
  | pruneOp (keepCount : Nat)
deriving Repr

/-- Backup runs that never fail in the window after the archive file is
created at line 172 and before its metadata document is written at
lines 215-217 (they either succeed or fail before the archive file
exists). -/
def safeOpb : FsOp → Bool
  | .run _ _ _ _ (.failAfterArchive _) _ => false
  | _ => true

/-- Interpretation of one operation. -/
def applyFsOp (unlinkOk : String → Bool) (fs : FsState) : FsOp → FsState
  | .run n mt c fc oc k => perform_backup_fs unlinkOk fs n mt c fc oc k
  | .deleteOp backupId => (delete_backup unlinkOk fs backupId).2.2
  | .pruneOp k => (cleanup_old_backups unlinkOk fs k).1

/-- Interpretation of an operation sequence, oldest first. -/
def applyFsOps (unlinkOk : String → Bool) (fs : FsState) (ops : List FsOp) : FsState :=
  ops.foldl (applyFsOp unlinkOk) fs

/-- The Archive/Metadata pairing invariant: every archive file has a
metadata document of the same base name, and every metadata document
has its archive file. -/
def pairedb (fs : FsState) : Bool :=
  fs.archives.all (fun a => fs.metas.any (fun m => m.name == a.name)) &&
    fs.metas.all (fun m => fs.archives.any (fun a => a.name == m.name))


/-- A small concrete host directory used to exercise the theorems on
explicit inputs. -/
def sampleDir : FsState :=
  { archives := [⟨"backup_a.zip", 3⟩, ⟨"backup_b.zip", 2⟩, ⟨"backup_c.zip", 1⟩],
    metas := [⟨"backup_a.zip", "2024-01-01T00:00:00", 1⟩,
              ⟨"backup_b.zip", "2024-01-02T00:00:00", 1⟩,
              ⟨"backup_c.zip", "2024-01-03T00:00:00", 1⟩] }

/-! ### Lemmas about the live job map -/

theorem lookupJob_updateJob_self (m : Backups) (s : String) (r : JobRecord) :
    lookupJob (updateJob m s r) s = some r := by
  induction m with
  | nil => simp [updateJob, lookupJob]
  | cons kv rest ih =>
    obtain ⟨k, v⟩ := kv
    by_cases h : k = s
    · simp [updateJob, h, lookupJob]
    · simp [updateJob, h, lookupJob, ih]

theorem lookupJob_setJobFields_some (m : Backups) (s : String) (f : JobRecord → JobRecord)
    (r0 : JobRecord) (h : lookupJob m s = some r0) :
    lookupJob (setJobFields m s f) s = some (f r0) := by
  simp [setJobFields, h, lookupJob_updateJob_self]

/-! ### Lemmas about the downloader -/

mutual

theorem download_files_le_countFiles (cb : Bool) (tf fp : Nat) (n : RemoteNode) :
    (download_path_with_progress cb tf fp n).files ≤ countFiles n := by
  match n with
  | .missing p => simp [download_path_with_progress, countFiles]
  | .file p size ok =>
    simp only [download_path_with_progress, countFiles]
    split
    · simp
    · split
      · simp
      · split <;> simp
  | .dir p cs listOk =>
    simp only [download_path_with_progress, countFiles]
    split
    · exact downloadChildren_files_le_countList cb tf fp cs
    · simp

theorem downloadChildren_files_le_countList (cb : Bool) (tf fp : Nat)
    (cs : List RemoteNode) :
    (downloadChildren cb tf fp cs).files ≤ countList cs := by
  match cs with
  | [] => simp [downloadChildren, countList]
  | c :: rest =>
    simp only [downloadChildren, countList]
    exact Nat.add_le_add (download_files_le_countFiles cb tf fp c)
      (downloadChildren_files_le_countList cb tf (fp + _) rest)

end

theorem analysisTotal_allOk (roots : List (RemoteNode × Bool))
    (hok : ∀ pr ∈ roots, pr.2 = true) :
    analysisTotal roots = countList (roots.map Prod.fst) := by
  induction roots with
  | nil => rfl
  | cons pr rest ih =>
    obtain ⟨n, ok⟩ := pr
    have h1 : ok = true := hok (n, ok) (List.mem_cons_self _ _)
    simp only [analysisTotal, List.map_cons, countList, count_files, h1, if_pos]
    rw [ih (fun q hq => hok q (List.mem_cons_of_mem _ hq))]

/-! ### Lemmas about the backup directory -/

theorem pairedb_filter (fs : FsState) (P : String → Bool) (h : pairedb fs = true) :
    pairedb { archives := fs.archives.filter (fun a => P a.name),
              metas := fs.metas.filter (fun m => P m.name) } = true := by
  simp only [pairedb, Bool.and_eq_true, List.all_eq_true] at h ⊢
  obtain ⟨h1, h2⟩ := h
  constructor
  · intro a ha
    rw [List.mem_filter] at ha
    obtain ⟨ham, hap⟩ := ha
    have h3 := h1 a ham
    rw [List.any_eq_true] at h3 ⊢
    obtain ⟨mm, hmm, hbe⟩ := h3
    have hname : mm.name = a.name := by simpa using hbe
    refine ⟨mm, ?_, hbe⟩
    rw [List.mem_filter]
    exact ⟨hmm, by rw [hname]; exact hap⟩
  · intro mm hmm
    rw [List.mem_filter] at hmm
    obtain ⟨hmem, hmp⟩ := hmm
    have h3 := h2 mm hmem
    rw [List.any_eq_true] at h3 ⊢
    obtain ⟨a, ha, hbe⟩ := h3
    have hname : a.name = mm.name := by simpa using hbe
    refine ⟨a, ?_, hbe⟩
    rw [List.mem_filter]
    exact ⟨ha, by rw [hname]; exact hmp⟩

theorem pruneLoop_allOk :
    ∀ (victims : List Archive) (fs : FsState),
      (pruneLoop (fun _ => true) fs victims).1 =
        { archives := fs.archives.filter
            (fun a => !(victims.any (fun v => a.name == v.name))),
          metas := fs.metas.filter
            (fun m => !(victims.any (fun v => m.name == v.name))) } := by
  intro victims
  induction victims with
  | nil =>
    intro fs
    simp [pruneLoop]
  | cons v rest ih =>
    intro fs
    have hmerge : ∀ (fs1 : FsState),
        fs1.archives = fs.archives.filter (fun a => !(a.name == v.name)) →
        fs1.metas = fs.metas.filter (fun m => !(m.name == v.name)) →
        (pruneLoop (fun _ => true) fs1 rest).1 =
          { archives := fs.archives.filter
              (fun a => !((v :: rest).any (fun w => a.name == w.name))),
            metas := fs.metas.filter
              (fun m => !((v :: rest).any (fun w => m.name == w.name))) } := by
      intro fs1 ha hm
      rw [ih fs1, ha, hm]
      simp only [FsState.mk.injEq]
      constructor
      · rw [List.filter_filter]
        apply List.filter_congr
        intro a _
        simp [List.any_cons, Bool.and_comm]
      · rw [List.filter_filter]
        apply List.filter_congr
        intro m _
        simp [List.any_cons, Bool.and_comm]
    by_cases hany :
        ((removeArchives fs v.name).metas.any (fun m => m.name == v.name)) = true
    · have hred : (pruneLoop (fun _ => true) fs (v :: rest)).1 =
          (pruneLoop (fun _ => true)
            (removeMetas (removeArchives fs v.name) v.name) rest).1 := by
        simp [pruneLoop, hany]
      rw [hred]
      exact hmerge _ rfl rfl
    · have hred : (pruneLoop (fun _ => true) fs (v :: rest)).1 =
          (pruneLoop (fun _ => true) (removeArchives fs v.name) rest).1 := by
        simp [pruneLoop, hany]
      rw [hred]
      apply hmerge _ rfl
      rw [eq_comm]
      apply List.filter_eq_self.mpr
      intro m hm
      simp only [removeArchives, List.any_eq_true, not_exists] at hany
      simp only [Bool.not_eq_true', beq_eq_false_iff_ne, ne_eq]
      intro hcon
      exact hany m ⟨hm, by simp [hcon]⟩

theorem cleanup_allOk (fs : FsState) (k : Nat) :
    (cleanup_old_backups (fun _ => true) fs k).1 =
      { archives := fs.archives.filter (fun a =>
          !(((List.insertionSort pruneGE fs.archives).drop k).any (fun v => a.name == v.name))),
        metas := fs.metas.filter (fun m =>
          !(((List.insertionSort pruneGE fs.archives).drop k).any (fun v => m.name == v.name))) } :=
  pruneLoop_allOk _ fs

theorem pairedb_append (fs : FsState) (n c : String) (mt fc : Nat)
    (h : pairedb fs = true) :
    pairedb { archives := fs.archives ++ [⟨n, mt⟩],
              metas := fs.metas ++ [⟨n, c, fc⟩] } = true := by
  simp only [pairedb, Bool.and_eq_true, List.all_eq_true] at h ⊢
  obtain ⟨h1, h2⟩ := h
  constructor
  · intro a ha
    rcases List.mem_append.mp ha with ha | ha
    · have h3 := h1 a ha
      rw [List.any_eq_true] at h3 ⊢
      obtain ⟨mm, hmm, hb⟩ := h3
      exact ⟨mm, List.mem_append_left _ hmm, hb⟩
    · have : a = ⟨n, mt⟩ := by simpa using ha
      subst this
      rw [List.any_eq_true]
      exact ⟨⟨n, c, fc⟩, List.mem_append_right _ (by simp), by simp⟩
  · intro mm hmm
    rcases List.mem_append.mp hmm with hmm | hmm
    · have h3 := h2 mm hmm
      rw [List.any_eq_true] at h3 ⊢
      obtain ⟨a, ha, hb⟩ := h3
      exact ⟨a, List.mem_append_left _ ha, hb⟩
    · have : mm = ⟨n, c, fc⟩ := by simpa using hmm
      subst this
      rw [List.any_eq_true]
      exact ⟨⟨n, mt⟩, List.mem_append_right _ (by simp), by simp⟩

theorem pairedb_cleanup (fs : FsState) (k : Nat) (h : pairedb fs = true) :
    pairedb (cleanup_old_backups (fun _ => true) fs k).1 = true := by
  rw [cleanup_allOk]
  exact pairedb_filter fs
    (fun nm => !(((List.insertionSort pruneGE fs.archives).drop k).any
      (fun v => nm == v.name))) h

theorem pairedb_delete (fs : FsState) (backupId : String) (h : pairedb fs = true) :
    pairedb (delete_backup (fun _ => true) fs backupId).2.2 = true := by
  unfold delete_backup
  cases hf : (get_backups fs).find? (fun m => m.createdAt == backupId) with
  | none => simpa using h
  | some b =>
    simp only [if_pos]
    exact pairedb_filter fs (fun x => !(x == b.name)) h

theorem pairedb_applyFsOp (fs : FsState) (op : FsOp)
    (hsafe : safeOpb op = true) (h : pairedb fs = true) :
    pairedb (applyFsOp (fun _ => true) fs op) = true := by
  cases op with
  | run n mt c fc outcome k =>
    cases outcome with
    | success => exact pairedb_cleanup _ k (pairedb_append fs n c mt fc h)
    | failBeforeArchive msg => exact h
    | failAfterArchive msg => simp [safeOpb] at hsafe
  | deleteOp backupId => exact pairedb_delete fs backupId h
  | pruneOp k => exact pairedb_cleanup fs k h


/-! ### Claim theorems -/

/-- C1: the claim says `start_backup` rejects exactly when a job for the
server is in status `running`, and that a terminal (`completed` or
`failed`) record lets a new start be accepted.  The code's guard at
line 61 only tests key membership in `self.active_backups`, whose
terminal records are never removed, so a server whose stored job is
`completed` is still rejected — with a message claiming a backup is in
progress.  This theorem evaluates the model at that failing input. -/
theorem C1_start_rejected_for_terminal_job :
    start_backup [("web1", { initialJob "t0" with status := "completed" })] "web1" "t1" =
      (false, "Backup already in progress for this server",
        [("web1", { initialJob "t0" with status := "completed" })]) ∧
    (lookupJob [("web1", { initialJob "t0" with status := "completed" })] "web1").map
        JobRecord.status = some "completed" := by decide

/-- C2: a terminating `_perform_backup` run leaves the server's job
record (when present) with status exactly `completed` or `failed`,
never `running`; an exception sets `failed` with the captured message,
normal completion sets `completed` with the `backup_file` path. -/
theorem C2_run_leaves_terminal_status (m : Backups) (serverName : String)
    (outcome : RunOutcome) (tf fp ds : Nat) (backupPath completedAt : String)
    (r0 : JobRecord) (h : lookupJob m serverName = some r0) :
    ∃ r, lookupJob (perform_backup_job m serverName outcome tf fp ds backupPath completedAt)
        serverName = some r ∧
      (r.status = "completed" ∨ r.status = "failed") ∧ r.status ≠ "running" ∧
      (∀ msg, outcome = .failBeforeArchive msg ∨ outcome = .failAfterArchive msg →
        r.status = "failed" ∧ r.error = some msg) ∧
      (outcome = .success → r.status = "completed" ∧ r.backupFile = some backupPath) := by
  cases outcome with
  | success =>
    refine ⟨_, lookupJob_setJobFields_some m serverName _ r0 h, ?_, ?_, ?_, ?_⟩ <;> simp
  | failBeforeArchive msg =>
    refine ⟨_, lookupJob_setJobFields_some m serverName _ r0 h, ?_, ?_, ?_, ?_⟩ <;> simp
  | failAfterArchive msg =>
    refine ⟨_, lookupJob_setJobFields_some m serverName _ r0 h, ?_, ?_, ?_, ?_⟩ <;> simp

/-- Witness for C2 at a concrete failing run. -/
theorem C2_witness :
    ∃ r, lookupJob (perform_backup_job [("web1", initialJob "t0")] "web1"
        (.failBeforeArchive "Authentication failed") 0 0 0 "" "") "web1" = some r ∧
      (r.status = "completed" ∨ r.status = "failed") ∧ r.status ≠ "running" ∧
      (∀ msg, (.failBeforeArchive "Authentication failed" : RunOutcome) = .failBeforeArchive msg ∨
          (.failBeforeArchive "Authentication failed" : RunOutcome) = .failAfterArchive msg →
        r.status = "failed" ∧ r.error = some msg) ∧
      ((.failBeforeArchive "Authentication failed" : RunOutcome) = .success →
        r.status = "completed" ∧ r.backupFile = some "") :=
  C2_run_leaves_terminal_status [("web1", initialJob "t0")] "web1"
    (.failBeforeArchive "Authentication failed") 0 0 0 "" "" (initialJob "t0") (by decide)

/-- C3: after pruning a host directory with keep-count `k` (all
deletions succeeding, archive names distinct), at most `k` archives
remain, the survivors are exactly the first `k` of the archives sorted
descending by `(mtime, name)` — the `k` most recently modified — every
survivor dominates every deleted entry in that order, and the
Archive/Metadata pairing is preserved (pairs are deleted together). -/
theorem C3_retention_invariant (unlinkOk : String → Bool) (fs : FsState) (k : Nat)
    (hok : ∀ s, unlinkOk s = true)
    (hnd : (fs.archives.map Archive.name).Nodup) :
    (cleanup_old_backups unlinkOk fs k).1.archives.length ≤ k ∧
    (cleanup_old_backups unlinkOk fs k).1.archives.Perm
      ((List.insertionSort pruneGE fs.archives).take k) ∧
    (∀ a ∈ (cleanup_old_backups unlinkOk fs k).1.archives,
      ∀ d ∈ fs.archives, d ∉ (cleanup_old_backups unlinkOk fs k).1.archives → pruneGE a d) ∧
    (pairedb fs = true → pairedb (cleanup_old_backups unlinkOk fs k).1 = true) := by
  have huk : unlinkOk = fun _ => true := funext hok
  subst huk
  have hperm : fs.archives.Perm (List.insertionSort pruneGE fs.archives) :=
    (List.perm_insertionSort pruneGE fs.archives).symm
  have hnds : ((List.insertionSort pruneGE fs.archives).map Archive.name).Nodup :=
    ((hperm.map Archive.name).nodup_iff).mp hnd
  have hsplit : List.insertionSort pruneGE fs.archives =
      (List.insertionSort pruneGE fs.archives).take k ++
        (List.insertionSort pruneGE fs.archives).drop k :=
    (List.take_append_drop k _).symm
  have hdisj : (((List.insertionSort pruneGE fs.archives).take k).map Archive.name).Disjoint
      (((List.insertionSort pruneGE fs.archives).drop k).map Archive.name) := by
    have h1 : ((((List.insertionSort pruneGE fs.archives).take k).map Archive.name) ++
        (((List.insertionSort pruneGE fs.archives).drop k).map Archive.name)).Nodup := by
      rw [← List.map_append, ← hsplit]
      exact hnds
    exact (List.nodup_append.mp h1).2.2
  have hkeepP : ∀ a ∈ (List.insertionSort pruneGE fs.archives).take k,
      (!(((List.insertionSort pruneGE fs.archives).drop k).any
        (fun v => a.name == v.name))) = true := by
    intro a ha
    rw [Bool.not_eq_true']
    rw [List.any_eq_false]
    intro v hv
    simp only [beq_iff_eq]
    intro hco
    exact hdisj (List.mem_map_of_mem Archive.name ha)
      (hco ▸ List.mem_map_of_mem Archive.name hv)
  have hkeep : ((List.insertionSort pruneGE fs.archives).take k).filter (fun a =>
      !(((List.insertionSort pruneGE fs.archives).drop k).any (fun v => a.name == v.name))) =
      (List.insertionSort pruneGE fs.archives).take k :=
    List.filter_eq_self.mpr hkeepP
  have hvic : ((List.insertionSort pruneGE fs.archives).drop k).filter (fun a =>
      !(((List.insertionSort pruneGE fs.archives).drop k).any (fun v => a.name == v.name))) =
      [] := by
    apply List.filter_eq_nil_iff.mpr
    intro a ha
    have hself : (((List.insertionSort pruneGE fs.archives).drop k).any
        (fun v => a.name == v.name)) = true :=
      List.any_eq_true.mpr ⟨a, ha, by simp⟩
    simp [hself]
  have hfeq : (List.insertionSort pruneGE fs.archives).filter (fun a =>
      !(((List.insertionSort pruneGE fs.archives).drop k).any (fun v => a.name == v.name))) =
      (List.insertionSort pruneGE fs.archives).take k := by
    have h5 : List.filter (fun a =>
        !(((List.insertionSort pruneGE fs.archives).drop k).any (fun v => a.name == v.name)))
          ((List.insertionSort pruneGE fs.archives).take k ++
            (List.insertionSort pruneGE fs.archives).drop k) =
        List.filter (fun a =>
          !(((List.insertionSort pruneGE fs.archives).drop k).any (fun v => a.name == v.name)))
          ((List.insertionSort pruneGE fs.archives).take k) ++
        List.filter (fun a =>
          !(((List.insertionSort pruneGE fs.archives).drop k).any (fun v => a.name == v.name)))
          ((List.insertionSort pruneGE fs.archives).drop k) :=
      List.filter_append _ _
    rw [List.take_append_drop] at h5
    rw [h5, hkeep, hvic, List.append_nil]
  have hresperm : (cleanup_old_backups (fun _ => true) fs k).1.archives.Perm
      ((List.insertionSort pruneGE fs.archives).take k) := by
    rw [cleanup_allOk]
    exact hfeq ▸ (hperm.filter _)
  refine ⟨?_, hresperm, ?_, ?_⟩
  · rw [hresperm.length_eq]
    exact List.length_take_le k _
  · intro a ha d hd hdn
    have hsorted : List.Pairwise pruneGE (List.insertionSort pruneGE fs.archives) :=
      List.sorted_insertionSort pruneGE fs.archives
    have hcross := (List.pairwise_append.mp (hsplit ▸ hsorted)).2.2
    have hak : a ∈ (List.insertionSort pruneGE fs.archives).take k :=
      hresperm.mem_iff.mp ha
    have hds : d ∈ List.insertionSort pruneGE fs.archives := hperm.mem_iff.mp hd
    rw [hsplit] at hds
    rcases List.mem_append.mp hds with hdk | hdd
    · exact absurd (hresperm.mem_iff.mpr hdk) hdn
    · exact hcross a hak d hdd
  · intro hp
    rw [cleanup_allOk]
    exact pairedb_filter fs
      (fun n => !(((List.insertionSort pruneGE fs.archives).drop k).any
        (fun v => n == v.name))) hp

/-- Witness for C3 on a concrete three-archive directory with keep-count 2. -/
theorem C3_witness :
    (∀ s, (fun (_ : String) => true) s = true) ∧
    ((sampleDir.archives.map Archive.name).Nodup) ∧
    ((cleanup_old_backups (fun _ => true) sampleDir 2).1.archives.length ≤ 2 ∧
      (cleanup_old_backups (fun _ => true) sampleDir 2).1.archives.Perm
        ((List.insertionSort pruneGE sampleDir.archives).take 2) ∧
      (∀ a ∈ (cleanup_old_backups (fun _ => true) sampleDir 2).1.archives,
        ∀ d ∈ sampleDir.archives,
          d ∉ (cleanup_old_backups (fun _ => true) sampleDir 2).1.archives → pruneGE a d) ∧
      (pairedb sampleDir = true →
        pairedb (cleanup_old_backups (fun _ => true) sampleDir 2).1 = true)) :=
  ⟨fun _ => rfl, by decide,
    C3_retention_invariant (fun _ => true) sampleDir 2 (fun _ => rfl) (by decide)⟩

/-- C4 counterexample: a single run that fails after the archive file
is created (line 172) but before the metadata write (lines 215-217) —
for example an exception during compression or the metadata write —
leaves an Archive with no Metadata Record, so the pairing invariant
does not survive every failed run, contrary to the claim. -/
theorem C4_counterexample :
    pairedb (applyFsOps (fun _ => true) ⟨[], []⟩
      [.run "backup_20240101_000000.zip" 1 "2024-01-01T00:00:00" 0
        (.failAfterArchive "disk full") 7]) = false := by decide

/-- C4 (amended): the Archive/Metadata pairing invariant is preserved
by every sequence of backup-run, delete and prune operations in which
each run either succeeds or fails before the archive file is created,
and every deletion succeeds; pairs are created and deleted together. -/
theorem C4_pairing_invariant (unlinkOk : String → Bool) (fs0 : FsState) (ops : List FsOp)
    (hok : ∀ s, unlinkOk s = true) (hsafe : ops.all safeOpb = true)
    (h0 : pairedb fs0 = true) :
    pairedb (applyFsOps unlinkOk fs0 ops) = true := by
  have huk : unlinkOk = fun _ => true := funext hok
  subst huk
  induction ops generalizing fs0 with
  | nil => exact h0
  | cons op rest ih =>
    rw [List.all_cons, Bool.and_eq_true] at hsafe
    exact ih (applyFsOp (fun _ => true) fs0 op) hsafe.2
      (pairedb_applyFsOp fs0 op hsafe.1 h0)

/-- Witness for C4 on a concrete sequence: two runs (one successful,
one failing before the archive), a delete, and a prune. -/
theorem C4_witness :
    (∀ s, (fun (_ : String) => true) s = true) ∧
    ([FsOp.run "backup_1.zip" 1 "t1" 2 .success 7,
      FsOp.run "backup_2.zip" 2 "t2" 3 (.failBeforeArchive "boom") 7,
      FsOp.deleteOp "t1", FsOp.pruneOp 7].all safeOpb = true) ∧
    pairedb (⟨[], []⟩ : FsState) = true ∧
    pairedb (applyFsOps (fun _ => true) ⟨[], []⟩
      [FsOp.run "backup_1.zip" 1 "t1" 2 .success 7,
       FsOp.run "backup_2.zip" 2 "t2" 3 (.failBeforeArchive "boom") 7,
       FsOp.deleteOp "t1", FsOp.pruneOp 7]) = true :=
  ⟨fun _ => rfl, by decide, by decide,
    C4_pairing_invariant (fun _ => true) ⟨[], []⟩
      [FsOp.run "backup_1.zip" 1 "t1" 2 .success 7,
       FsOp.run "backup_2.zip" 2 "t2" 3 (.failBeforeArchive "boom") 7,
       FsOp.deleteOp "t1", FsOp.pruneOp 7] (fun _ => rfl) (by decide) (by decide)⟩

/-- C5 counterexample: a completed run whose analysis-time count failed
for one of two requested single-file paths (`_count_files` returned 0
for it) downloads both files, ending `completed` with
`files_processed = 2 > total_files = 1`. -/
theorem C5_counterexample :
    ∃ r, lookupJob (run_backup_pipeline [("web1", initialJob "t0")] "web1"
        [((RemoteNode.file "/etc/a.conf" 7 true), false),
         ((RemoteNode.file "/etc/b.conf" 9 true), true)] true
        "/backup/web1/backup_1.zip" "t1").1 "web1" = some r ∧
      r.status = "completed" ∧ r.filesProcessed = 2 ∧ r.totalFiles = 1 ∧
      ¬ r.filesProcessed ≤ r.totalFiles := by decide

/-- C5 (amended): when the analysis-time remote count succeeds for
every requested root, a completed run records
`files_processed ≤ total_files` (the downloader transfers at most the
files that `find` counted). -/
theorem C5_files_processed_le_total (m : Backups) (serverName backupPath completedAt : String)
    (roots : List (RemoteNode × Bool)) (cb : Bool) (r0 : JobRecord)
    (hok : ∀ pr ∈ roots, pr.2 = true)
    (hm : lookupJob m serverName = some r0) :
    (run_backup_pipeline m serverName roots cb backupPath completedAt).2.files ≤
      analysisTotal roots ∧
    ∃ r, lookupJob (run_backup_pipeline m serverName roots cb backupPath completedAt).1
        serverName = some r ∧
      r.filesProcessed ≤ r.totalFiles ∧ r.totalFiles = analysisTotal roots := by
  have hle : (downloadChildren cb (analysisTotal roots) 0 (roots.map Prod.fst)).files ≤
      analysisTotal roots := by
    rw [analysisTotal_allOk roots hok]
    exact downloadChildren_files_le_countList cb _ 0 _
  exact ⟨hle, _, lookupJob_setJobFields_some m serverName _ r0 hm, hle, rfl⟩

/-- Witness for C5 on two successfully counted single-file roots. -/
theorem C5_witness :
    (∀ pr ∈ [((RemoteNode.file "/etc/a.conf" 7 true), true),
        ((RemoteNode.file "/etc/b.conf" 9 true), true)], pr.2 = true) ∧
    lookupJob [("web1", initialJob "t0")] "web1" = some (initialJob "t0") ∧
    ((run_backup_pipeline [("web1", initialJob "t0")] "web1"
        [((RemoteNode.file "/etc/a.conf" 7 true), true),
         ((RemoteNode.file "/etc/b.conf" 9 true), true)] true
        "/backup/web1/backup_1.zip" "t1").2.files ≤
      analysisTotal [((RemoteNode.file "/etc/a.conf" 7 true), true),
        ((RemoteNode.file "/etc/b.conf" 9 true), true)] ∧
    ∃ r, lookupJob (run_backup_pipeline [("web1", initialJob "t0")] "web1"
        [((RemoteNode.file "/etc/a.conf" 7 true), true),
         ((RemoteNode.file "/etc/b.conf" 9 true), true)] true
        "/backup/web1/backup_1.zip" "t1").1 "web1" = some r ∧
      r.filesProcessed ≤ r.totalFiles ∧
      r.totalFiles = analysisTotal [((RemoteNode.file "/etc/a.conf" 7 true), true),
        ((RemoteNode.file "/etc/b.conf" 9 true), true)]) :=
  ⟨by decide, by decide,
    C5_files_processed_le_total [("web1", initialJob "t0")] "web1"
      "/backup/web1/backup_1.zip" "t1"
      [((RemoteNode.file "/etc/a.conf" 7 true), true),
       ((RemoteNode.file "/etc/b.conf" 9 true), true)] true
      (initialJob "t0") (by decide) (by decide)⟩

/-- C6 counterexample: with three archives and keep-count 1, the
victims in deletion order are `backup_b.zip` then `backup_c.zip`; when
deleting `backup_b.zip` fails, pruning returns with the directory
unchanged — `backup_c.zip`, the entry after the failing one, is not
processed, contrary to the claim. -/
theorem C6_counterexample :
    (List.insertionSort pruneGE
        [(⟨"backup_a.zip", 3⟩ : Archive), ⟨"backup_b.zip", 2⟩, ⟨"backup_c.zip", 1⟩]).drop 1 =
      [(⟨"backup_b.zip", 2⟩ : Archive), ⟨"backup_c.zip", 1⟩] ∧
    (cleanup_old_backups (fun s => !(s == "backup_b.zip"))
        ⟨[⟨"backup_a.zip", 3⟩, ⟨"backup_b.zip", 2⟩, ⟨"backup_c.zip", 1⟩],
         [⟨"backup_a.zip", "ta", 1⟩, ⟨"backup_b.zip", "tb", 1⟩, ⟨"backup_c.zip", "tc", 1⟩]⟩ 1).1 =
      ⟨[⟨"backup_a.zip", 3⟩, ⟨"backup_b.zip", 2⟩, ⟨"backup_c.zip", 1⟩],
       [⟨"backup_a.zip", "ta", 1⟩, ⟨"backup_b.zip", "tb", 1⟩, ⟨"backup_c.zip", "tc", 1⟩]⟩ := by
  decide

/-- C6 (amended): a failing deletion during pruning is caught by the
handler wrapping the whole pass (the function returns normally with the
error logged), but it aborts the pass: the failing entry and every
entry after it are left unprocessed. -/
theorem C6_prune_failure_aborts_rest (unlinkOk : String → Bool) (fs : FsState)
    (v : Archive) (rest : List Archive) :
    (unlinkOk v.name = false →
      pruneLoop unlinkOk fs (v :: rest) = (fs, ["Error cleaning up old backups"])) ∧
    (unlinkOk v.name = true →
      (removeArchives fs v.name).metas.any (fun m => m.name == v.name) = true →
      unlinkOk (v.name ++ ".json") = false →
      pruneLoop unlinkOk fs (v :: rest) =
        (removeArchives fs v.name, ["Error cleaning up old backups"])) := by
  constructor
  · intro h; simp [pruneLoop, h]
  · intro h1 h2 h3; simp [pruneLoop, h1, h2, h3]

/-- Witness for C6: the failing `unlink` of `backup_b.zip` stops the
loop before `backup_c.zip`. -/
theorem C6_witness :
    ((fun s => !(s == "backup_b.zip")) "backup_b.zip" = false) ∧
    pruneLoop (fun s => !(s == "backup_b.zip"))
        ⟨[⟨"backup_a.zip", 3⟩, ⟨"backup_b.zip", 2⟩, ⟨"backup_c.zip", 1⟩],
         [⟨"backup_a.zip", "ta", 1⟩, ⟨"backup_b.zip", "tb", 1⟩, ⟨"backup_c.zip", "tc", 1⟩]⟩
        [⟨"backup_b.zip", 2⟩, ⟨"backup_c.zip", 1⟩] =
      (⟨[⟨"backup_a.zip", 3⟩, ⟨"backup_b.zip", 2⟩, ⟨"backup_c.zip", 1⟩],
        [⟨"backup_a.zip", "ta", 1⟩, ⟨"backup_b.zip", "tb", 1⟩, ⟨"backup_c.zip", "tc", 1⟩]⟩,
       ["Error cleaning up old backups"]) :=
  ⟨by decide,
    (C6_prune_failure_aborts_rest (fun s => !(s == "backup_b.zip"))
      ⟨[⟨"backup_a.zip", 3⟩, ⟨"backup_b.zip", 2⟩, ⟨"backup_c.zip", 1⟩],
       [⟨"backup_a.zip", "ta", 1⟩, ⟨"backup_b.zip", "tb", 1⟩, ⟨"backup_c.zip", "tc", 1⟩]⟩
      ⟨"backup_b.zip", 2⟩ [⟨"backup_c.zip", 1⟩]).1 (by decide)⟩

/-- C7: `delete_backup` with a `backup_id` matching no metadata record
whose archive exists returns the `Backup not found` failure and touches
nothing; with a match, it deletes both the archive and its metadata
document and reports success. -/
theorem C7_delete_backup_spec (unlinkOk : String → Bool) (fs : FsState) (backupId : String)
    (hok : ∀ s, unlinkOk s = true) :
    ((∀ mm ∈ fs.metas, fs.archives.any (fun a => a.name == mm.name) = true →
        ¬ mm.createdAt = backupId) →
      delete_backup unlinkOk fs backupId = (false, "Backup not found", fs)) ∧
    (∀ b, (get_backups fs).find? (fun m => m.createdAt == backupId) = some b →
      (delete_backup unlinkOk fs backupId).1 = true ∧
      (delete_backup unlinkOk fs backupId).2.1 = "Backup deleted successfully" ∧
      (delete_backup unlinkOk fs backupId).2.2 =
        { archives := fs.archives.filter (fun a => !(a.name == b.name)),
          metas := fs.metas.filter (fun m => !(m.name == b.name)) }) := by
  constructor
  · intro hnone
    have hfind : (get_backups fs).find? (fun m => m.createdAt == backupId) = none := by
      apply List.find?_eq_none.mpr
      intro x hx
      have hx' : x ∈ fs.metas.filter (fun m => fs.archives.any (fun a => a.name == m.name)) :=
        ((List.perm_insertionSort metaCreatedGE _).mem_iff).mp hx
      rw [List.mem_filter] at hx'
      simpa using hnone x hx'.1 hx'.2
    simp [delete_backup, hfind]
  · intro b hb
    simp [delete_backup, hb, hok, removeArchives, removeMetas]

/-- Witness for C7: deleting the only backup of a one-pair directory. -/
theorem C7_witness :
    (∀ s, (fun (_ : String) => true) s = true) ∧
    (get_backups ⟨[⟨"backup_a.zip", 3⟩], [⟨"backup_a.zip", "2024-01-01T00:00:00", 3⟩]⟩).find?
        (fun m => m.createdAt == "2024-01-01T00:00:00") =
      some ⟨"backup_a.zip", "2024-01-01T00:00:00", 3⟩ ∧
    ((delete_backup (fun _ => true)
        ⟨[⟨"backup_a.zip", 3⟩], [⟨"backup_a.zip", "2024-01-01T00:00:00", 3⟩]⟩
        "2024-01-01T00:00:00").1 = true ∧
      (delete_backup (fun _ => true)
        ⟨[⟨"backup_a.zip", 3⟩], [⟨"backup_a.zip", "2024-01-01T00:00:00", 3⟩]⟩
        "2024-01-01T00:00:00").2.1 = "Backup deleted successfully" ∧
      (delete_backup (fun _ => true)
        ⟨[⟨"backup_a.zip", 3⟩], [⟨"backup_a.zip", "2024-01-01T00:00:00", 3⟩]⟩
        "2024-01-01T00:00:00").2.2 =
      ⟨List.filter (fun a => !(a.name == "backup_a.zip")) [⟨"backup_a.zip", 3⟩],
       List.filter (fun m => !(m.name == "backup_a.zip"))
         [⟨"backup_a.zip", "2024-01-01T00:00:00", 3⟩]⟩) :=
  ⟨fun _ => rfl, by decide,
    (C7_delete_backup_spec (fun _ => true)
      ⟨[⟨"backup_a.zip", 3⟩], [⟨"backup_a.zip", "2024-01-01T00:00:00", 3⟩]⟩
      "2024-01-01T00:00:00" (fun _ => rfl)).2
      ⟨"backup_a.zip", "2024-01-01T00:00:00", 3⟩ (by decide)⟩

/-- C8: a remote file whose lowered name ends in `.sqlite`, `.sqlite3`
or `.db` is skipped with a warning and contributes `(0, 0)`; a run
requesting only such a path completes with `files_processed = 0` and
nothing staged for the archive (zero entries). -/
theorem C8_excluded_db_file_skipped (p : String) (size : Nat) (ok cok cb : Bool)
    (tf fp : Nat) (m : Backups) (serverName backupPath completedAt : String)
    (r0 : JobRecord) (hex : isExcludedDb p = true)
    (hm : lookupJob m serverName = some r0) :
    download_path_with_progress cb tf fp (.file p size ok) =
      ⟨0, 0, if cb then [⟨"warning", "Skipping locked database file: " ++ p, none⟩] else []⟩ ∧
    (run_backup_pipeline m serverName [(.file p size ok, cok)] cb
        backupPath completedAt).2.files = 0 ∧
    ∃ r, lookupJob (run_backup_pipeline m serverName [(.file p size ok, cok)] cb
        backupPath completedAt).1 serverName = some r ∧
      r.status = "completed" ∧ r.filesProcessed = 0 := by
  have hdl : ∀ tf2 fp2, download_path_with_progress cb tf2 fp2 (.file p size ok) =
      ⟨0, 0, if cb then [⟨"warning", "Skipping locked database file: " ++ p, none⟩] else []⟩ := by
    intro tf2 fp2; simp [download_path_with_progress, hex]
  have hch : ∀ tf2, downloadChildren cb tf2 0 [RemoteNode.file p size ok] =
      ⟨0, 0, if cb then [⟨"warning", "Skipping locked database file: " ++ p, none⟩] else []⟩ := by
    intro tf2
    simp [downloadChildren, hdl]
  have hpipe : (run_backup_pipeline m serverName [(.file p size ok, cok)] cb
      backupPath completedAt).1 =
      perform_backup_job m serverName .success (analysisTotal [(.file p size ok, cok)]) 0 0
        backupPath completedAt := by
    simp [run_backup_pipeline, hch]
  refine ⟨hdl tf fp, ?_, ?_⟩
  · simp [run_backup_pipeline, hch]
  · rw [hpipe]
    exact ⟨_, lookupJob_setJobFields_some m serverName _ r0 hm, rfl, rfl⟩

/-- Witness for C8 at the spec's scenario path `/var/lib/app.sqlite`. -/
theorem C8_witness :
    isExcludedDb "/var/lib/app.sqlite" = true ∧
    lookupJob [("web1", initialJob "t0")] "web1" = some (initialJob "t0") ∧
    (download_path_with_progress true 1 0 (.file "/var/lib/app.sqlite" 4096 true) =
      ⟨0, 0, if true then
        [⟨"warning", "Skipping locked database file: " ++ "/var/lib/app.sqlite", none⟩]
        else []⟩ ∧
    (run_backup_pipeline [("web1", initialJob "t0")] "web1"
        [(.file "/var/lib/app.sqlite" 4096 true, true)] true
        "/backup/web1/backup_1.zip" "t1").2.files = 0 ∧
    ∃ r, lookupJob (run_backup_pipeline [("web1", initialJob "t0")] "web1"
        [(.file "/var/lib/app.sqlite" 4096 true, true)] true
        "/backup/web1/backup_1.zip" "t1").1 "web1" = some r ∧
      r.status = "completed" ∧ r.filesProcessed = 0) :=
  ⟨by decide, by decide,
    C8_excluded_db_file_skipped "/var/lib/app.sqlite" 4096 true true true 1 0
      [("web1", initialJob "t0")] "web1" "/backup/web1/backup_1.zip" "t1" (initialJob "t0")
      (by decide) (by decide)⟩

/-- C9: the info event emitted for a file transfer carries progress
exactly `downloadProgress fp tf = 15 + fp * 60 / tf` (Python floor
division), and for `0 ≤ fp ≤ tf` with `tf > 0` this stays in the fixed
15-75 band of the progress scale. -/
theorem C9_download_progress_band (p : String) (size fp tf : Nat) (ok : Bool)
    (hex : isExcludedDb p = false) (htf : 0 < tf) (hfp : fp ≤ tf) :
    (download_path_with_progress true tf fp (.file p size ok)).events.head? =
        some ⟨"info", "Downloading: " ++ p, some (downloadProgress fp tf)⟩ ∧
      downloadProgress fp tf = 15 + fp * 60 / tf ∧
      15 ≤ downloadProgress fp tf ∧ downloadProgress fp tf ≤ 75 := by
  have hne : ¬ tf = 0 := htf.ne'
  refine ⟨?_, rfl, ?_, ?_⟩
  · cases ok <;> simp [download_path_with_progress, hex, hne]
  · exact Nat.le_add_right 15 _
  · have h1 : fp * 60 ≤ tf * 60 := Nat.mul_le_mul_right 60 hfp
    have h2 : fp * 60 / tf ≤ tf * 60 / tf := Nat.div_le_div_right h1
    have h3 : tf * 60 / tf = 60 := Nat.mul_div_cancel_left 60 htf
    unfold downloadProgress
    omega

/-- Witness for C9 at `fp = 3`, `tf = 4` (progress 60). -/
theorem C9_witness :
    isExcludedDb "/etc/nginx/nginx.conf" = false ∧ 0 < 4 ∧ 3 ≤ 4 ∧
    ((download_path_with_progress true 4 3 (.file "/etc/nginx/nginx.conf" 512 true)).events.head? =
        some ⟨"info", "Downloading: /etc/nginx/nginx.conf", some (downloadProgress 3 4)⟩ ∧
      downloadProgress 3 4 = 15 + 3 * 60 / 4 ∧
      15 ≤ downloadProgress 3 4 ∧ downloadProgress 3 4 ≤ 75) :=
  ⟨by decide, by decide, by decide,
    C9_download_progress_band "/etc/nginx/nginx.conf" 512 3 4 true
      (by decide) (by decide) (by decide)⟩

/-- C10: with `total_files = 0` (every remote count failed) and a
progress callback present, the progress expression for an existing,
non-excluded, transferable file raises `ZeroDivisionError`; the
downloader's own handler catches it, emits an error event and returns
`(0, 0)` — the file is not transferred — yet the run still reaches a
terminal job status instead of crashing. -/
theorem C10_zero_total_divzero_caught (p : String) (size : Nat) (fp : Nat) (m : Backups)
    (serverName backupPath completedAt : String) (r0 : JobRecord)
    (hex : isExcludedDb p = false) (hm : lookupJob m serverName = some r0) :
    download_path_with_progress true 0 fp (.file p size true) =
      ⟨0, 0, [⟨"error",
        "Error downloading " ++ p ++ ": integer division or modulo by zero", none⟩]⟩ ∧
    analysisTotal [(.file p size true, false)] = 0 ∧
    (run_backup_pipeline m serverName [(.file p size true, false)] true
        backupPath completedAt).2.files = 0 ∧
    ∃ r, lookupJob (run_backup_pipeline m serverName [(.file p size true, false)] true
        backupPath completedAt).1 serverName = some r ∧
      (r.status = "completed" ∨ r.status = "failed") ∧ r.filesProcessed = 0 := by
  have hdl : ∀ fp2, download_path_with_progress true 0 fp2 (.file p size true) =
      ⟨0, 0, [⟨"error",
        "Error downloading " ++ p ++ ": integer division or modulo by zero", none⟩]⟩ := by
    intro fp2; simp [download_path_with_progress, hex]
  have hch : downloadChildren true 0 0 [RemoteNode.file p size true] =
      ⟨0, 0, [⟨"error",
        "Error downloading " ++ p ++ ": integer division or modulo by zero", none⟩]⟩ := by
    simp [downloadChildren, hdl]
  have hta : analysisTotal [((RemoteNode.file p size true : RemoteNode), false)] = 0 := by
    simp [analysisTotal, count_files]
  have hpipe : (run_backup_pipeline m serverName [(.file p size true, false)] true
      backupPath completedAt).1 =
      perform_backup_job m serverName .success 0 0 0 backupPath completedAt := by
    simp [run_backup_pipeline, hta, hch]
  refine ⟨hdl fp, hta, ?_, ?_⟩
  · simp [run_backup_pipeline, hta, hch]
  · rw [hpipe]
    exact ⟨_, lookupJob_setJobFields_some m serverName _ r0 hm, Or.inl rfl, rfl⟩

/-- Witness for C10 at an existing transferable config file. -/
theorem C10_witness :
    isExcludedDb "/etc/app.conf" = false ∧
    lookupJob [("web1", initialJob "t0")] "web1" = some (initialJob "t0") ∧
    (download_path_with_progress true 0 0 (.file "/etc/app.conf" 100 true) =
      ⟨0, 0, [⟨"error",
        "Error downloading " ++ "/etc/app.conf" ++ ": integer division or modulo by zero",
        none⟩]⟩ ∧
    analysisTotal [(.file "/etc/app.conf" 100 true, false)] = 0 ∧
    (run_backup_pipeline [("web1", initialJob "t0")] "web1"
        [(.file "/etc/app.conf" 100 true, false)] true
        "/backup/web1/backup_1.zip" "t1").2.files = 0 ∧
    ∃ r, lookupJob (run_backup_pipeline [("web1", initialJob "t0")] "web1"
        [(.file "/etc/app.conf" 100 true, false)] true
        "/backup/web1/backup_1.zip" "t1").1 "web1" = some r ∧
      (r.status = "completed" ∨ r.status = "failed") ∧ r.filesProcessed = 0) :=
  ⟨by decide, by decide,
    C10_zero_total_divzero_caught "/etc/app.conf" 100 0 [("web1", initialJob "t0")] "web1"
      "/backup/web1/backup_1.zip" "t1" (initialJob "t0") (by decide) (by decide)⟩

end Backuper
